import Mathlib

/-
Verification of the egui_gallery image-ingestion server against its design
specification. The definitions below are a shallow embedding of the Rust
source in src/server/src/main.rs (plus the shared response type in
src/shared/src/lib.rs); theorems settle the frozen specification claims.
-/

set_option maxRecDepth 4000

namespace EguiGallery

/-
Result of a Rust call in the embedding: ok value, an io error (the Err
branch of io::Result), or a crash (a panic: usize subtraction underflow
with overflow checks, or an unreachable branch). Arithmetic on machine
integers is modelled with explicit wrapping helpers where the source
casts; usize subtraction is modelled with checked (debug) semantics, the
mode in which the Rust loop bound computation aborts.
-/
inductive RRes (α : Type) where
  | ok (a : α)
  | err (msg : String)
  | crash
deriving DecidableEq

/-
The synchronous byte source handed to the blocking decoder
(struct Buffer in src/server/src/main.rs). buffer is the accumulated
bytes received so far, position the read cursor, and channel the chunks
still to arrive on the mpsc receiver, in network-arrival order; an
exhausted channel models a closed channel (all senders dropped), on
which recv returns an error.
-/
structure Buffer where
  buffer : List Nat
  position : Nat
  channel : List (List Nat)
deriving DecidableEq

/- Buffer::read_channel: recv one chunk and append it to the buffer. -/
def Buffer.read_channel (b : Buffer) : Except String Buffer :=
  match b.channel with
  | [] => Except.error "Data has ended"
  | data :: rest =>
      Except.ok { buffer := b.buffer ++ data, position := b.position, channel := rest }

/-
The copy loop of Read::read for Buffer: the loop bound is
(buffer.len() - position).min(buf.len()); when position exceeds the
buffer length the usize subtraction underflows, modelled as a crash.
Otherwise the bytes buffer[position .. position+count] are written out
and the position advances by count.
-/
def Buffer.readCore (b : Buffer) (bufLen : Nat) : RRes (List Nat × Buffer) :=
  if b.buffer.length < b.position then RRes.crash
  else
    let count := min (b.buffer.length - b.position) bufLen
    RRes.ok ((b.buffer.drop b.position).take count,
      { b with position := b.position + count })

/-
Read::read for Buffer: when position >= buffer.len() first block for one
more chunk from the channel, then run the copy loop.
-/
def Buffer.read (b : Buffer) (bufLen : Nat) : RRes (List Nat × Buffer) :=
  if b.buffer.length ≤ b.position then
    match b.read_channel with
    | Except.error e => RRes.err e
    | Except.ok b2 => b2.readCore bufLen
  else b.readCore bufLen

/-
BufRead::fill_buf for Buffer: unconditionally block for one more chunk,
then return the WHOLE accumulated buffer (from index 0, not from the
current position).
-/
def Buffer.fill_buf (b : Buffer) : RRes (List Nat × Buffer) :=
  match b.read_channel with
  | Except.error e => RRes.err e
  | Except.ok b2 => RRes.ok (b2.buffer, b2)

/- BufRead::consume for Buffer: advance position, clamped to the buffer length. -/
def Buffer.consume (b : Buffer) (amount : Nat) : Buffer :=
  { b with position := min b.buffer.length (b.position + amount) }

/- io::SeekFrom; fromEnd embeds SeekFrom::End. -/
inductive SeekFrom where
  | start (offset : Nat)
  | fromEnd (offset : Int)
  | current (offset : Int)
deriving DecidableEq

/- Reinterpret a u64 value as i64 (the cast offset as i64 in seek). -/
def toI64 (n : Nat) : Int :=
  if n % 2 ^ 64 < 2 ^ 63 then ((n % 2 ^ 64 : Nat) : Int)
  else ((n % 2 ^ 64 : Nat) : Int) - 2 ^ 64

/- Wrapping i64 addition result (release-mode semantics of the cast sum). -/
def wrapI64 (x : Int) : Int := (x + 2 ^ 63) % 2 ^ 64 - 2 ^ 63

/-
Seek::seek for Buffer: Start and Current compute a signed target
position; a negative target is an InvalidInput error, otherwise the
position is set (with no upper bound against the buffer length).
SeekFrom::End hits unreachable!(), modelled as a crash.
-/
def Buffer.seek (b : Buffer) (pos : SeekFrom) : RRes (Nat × Buffer) :=
  match pos with
  | SeekFrom.fromEnd _ => RRes.crash
  | SeekFrom.start offset =>
      let new_pos := toI64 offset
      if new_pos < 0 then RRes.err "invalid seek"
      else RRes.ok (new_pos.toNat, { b with position := new_pos.toNat })
  | SeekFrom.current offset =>
      let new_pos := wrapI64 (toI64 b.position + offset)
      if new_pos < 0 then RRes.err "invalid seek"
      else RRes.ok (new_pos.toNat, { b with position := new_pos.toNat })

/- The safety invariant of the byte source: the cursor stays within the buffer. -/
def BufInv (b : Buffer) : Prop := b.position ≤ b.buffer.length

instance (b : Buffer) : Decidable (BufInv b) := by
  unfold BufInv; infer_instance

/--
Modelled from the spec: section 4.3 restricts the seeks the decoder may
issue to forward/current-position semantics — backward/absolute-end
seeks are not needed — so the decoder never passes SeekFrom::End. The
image-decoding routine itself is an external collaborator and is not in
the repository source.
-/
def specAllowedSeek : SeekFrom → Bool
  | SeekFrom.fromEnd _ => false
  | _ => true

/-
Events observable from one ingestion task in fetch_images
(src/server/src/main.rs, the spawned per-image task body), in program
order. releasePermit is the drop of the semaphore permit, sendChunk the
tee of one network chunk into the mpsc channel by the InspectReader
closure, sendSentinel the explicit empty-chunk send after the disk copy,
awaitDecode the join of the spawn_blocking decode handle, closeChannel
the drop of the InspectReader (and with it the only sender, closing the
channel).
-/
inductive Ev where
  | acquire
  | netGet (ok : Bool)
  | fileCreate (ok : Bool)
  | sendChunk (c : List Nat)
  | copyDone (ok : Bool)
  | sendSentinel
  | releasePermit
  | awaitDecode
  | closeChannel
deriving DecidableEq

/-
Environmental outcome of one task: whether reqwest::get succeeds,
whether File::create succeeds, and whether tokio::io::copy fails (some k
means the copy errors after k chunks were read and teed; none means the
copy completes). The semaphore acquire itself only errors when the
semaphore is closed, which never happens in this program.
-/
structure TaskOutcome where
  getOk : Bool
  createOk : Bool
  copyFail : Option Nat
deriving DecidableEq

/-
The event trace of one ingestion task, following the control flow of the
task body: acquire the permit; download; on an early error return, local
variables drop in reverse declaration order (the InspectReader, closing
the channel, before the permit); on success the sentinel is sent, the
permit explicitly dropped, the decode handle awaited, and the scope end
closes the channel.
-/
def taskTrace (o : TaskOutcome) (chunks : List (List Nat)) : List Ev :=
  if o.getOk = false then
    [Ev.acquire, Ev.netGet false, Ev.releasePermit]
  else if o.createOk = false then
    [Ev.acquire, Ev.netGet true, Ev.fileCreate false, Ev.closeChannel, Ev.releasePermit]
  else
    match o.copyFail with
    | some k =>
        [Ev.acquire, Ev.netGet true, Ev.fileCreate true]
          ++ (chunks.take k).map Ev.sendChunk
          ++ [Ev.copyDone false, Ev.closeChannel, Ev.releasePermit]
    | none =>
        [Ev.acquire, Ev.netGet true, Ev.fileCreate true]
          ++ chunks.map Ev.sendChunk
          ++ [Ev.copyDone true, Ev.sendSentinel, Ev.releasePermit,
              Ev.awaitDecode, Ev.closeChannel]

/- The download, disk write and copy of a task all succeeded. -/
def downloadOk (o : TaskOutcome) : Bool :=
  o.getOk && o.createOk && o.copyFail.isNone

/- The events of a trace strictly after the (first) permit release. -/
def afterRelease (t : List Ev) : List Ev :=
  (t.dropWhile (fun e => !(e == Ev.releasePermit))).drop 1

/-
The Image value assembled by the decode closure in fetch_images: width
and height from the decoded raster (u32), the thumbhash bytes, the
relative path images/<filename>, and the MIME type from format
detection.
-/
structure Image where
  width : Nat
  height : Nat
  hash : List Nat
  path : String
  mime_type : String
deriving DecidableEq

/-
futures_util::future::join_all collects the outputs of the per-task
futures into a Vec indexed by input position, whatever order the tasks
complete in. We model completion order as the list of task indices in
the order they finish: each completion deposits the result of task i
into slot i; slots start unfilled.
-/
def joinAllOrdered {α : Type} (results : List α) (order : List Nat) : List (Option α) :=
  order.foldl (fun acc i => acc.set i results[i]?) (List.replicate results.length none)

/-
fetch_images after the catalog page was parsed: one spawned task per
descriptor (its outcome abstracted as the task function, an Ok Image or
an anyhow error, with a JoinError also landing in the per-element error
via the question mark on handle await), assembled by join_all under an
arbitrary completion order.
-/
def fetch_images (descs : List String) (task : String → Except String Image)
    (order : List Nat) : List (Option (Except String Image)) :=
  joinAllOrdered (descs.map task) order

/- Reinterpret a u32 value as i32 (the width as i32 casts in the handler). -/
def toI32 (n : Nat) : Int :=
  if n % 2 ^ 32 < 2 ^ 31 then ((n % 2 ^ 32 : Nat) : Int)
  else ((n % 2 ^ 32 : Nat) : Int) - 2 ^ 32

/- Lowercase hex digit for a value below 16 (the hex crate encoding). -/
def hexDigitChar (n : Nat) : Char :=
  if n < 10 then Char.ofNat (48 + n) else Char.ofNat (87 + n)

/- hex::encode — two lowercase hex digits per byte, in order. -/
def hexEncode (bytes : List Nat) : String :=
  String.mk ((bytes.map (fun b => [hexDigitChar (b / 16), hexDigitChar (b % 16)])).flatten)

/- Value of one hex digit character; upper and lower case accepted. -/
def hexVal (c : Char) : Option Nat :=
  if 48 ≤ c.toNat ∧ c.toNat ≤ 57 then some (c.toNat - 48)
  else if 97 ≤ c.toNat ∧ c.toNat ≤ 102 then some (c.toNat - 87)
  else if 65 ≤ c.toNat ∧ c.toNat ≤ 70 then some (c.toNat - 55)
  else none

/- hex decoding of a character list; odd length or a bad digit fails. -/
def hexDecodeList : List Char → Option (List Nat)
  | [] => some []
  | [_] => none
  | c1 :: c2 :: rest => do
      let h ← hexVal c1
      let l ← hexVal c2
      let r ← hexDecodeList rest
      pure ((16 * h + l) :: r)

/- hex::decode as used by the serde helper of the shared crate. -/
def hexDecode (s : String) : Option (List Nat) := hexDecodeList s.data

/-
A row of the images table. The id is the rowid SQLite assigns at insert
(consecutive from 1 for this insert-only table); hash is the raw byte
blob.
-/
structure Row where
  id : Int
  author : String
  width : Int
  height : Int
  hash : List Nat
  path : String
  mime_type : String
deriving DecidableEq

/-
The ImageResponse JSON shape of the server (src/server/src/main.rs):
hash is hex-encoded at the boundary; there is no url field.
-/
structure ImageResponse where
  id : Int
  author : String
  width : Int
  height : Int
  hash : String
  path : String
  mime_type : String
deriving DecidableEq

/- Row of the INSERT in fetch_and_insert_images, given the assigned id. -/
def mkRow (id : Int) (img : Image) : Row :=
  { id := id, author := "Picsum Photos", width := toI32 img.width,
    height := toI32 img.height, hash := img.hash, path := img.path,
    mime_type := img.mime_type }

/- The success ImageResponse pushed after a successful insert. -/
def mkResponse (id : Int) (img : Image) : ImageResponse :=
  { id := id, author := "Picsum Photos", width := toI32 img.width,
    height := toI32 img.height, hash := hexEncode img.hash, path := img.path,
    mime_type := img.mime_type }

/-
The insertion loop of fetch_and_insert_images over the fetched results:
an Err element is logged and skipped; an Ok element triggers an INSERT
whose success is decided by the insertOk oracle at the element index
(the database is an external engine); on insert success the new row is
appended (id = rowid = previous row count + 1) and a success response
with the assigned id is pushed; on insert failure the error is logged
and the element skipped.
-/
def processFetched (db : List Row) (insertOk : Nat → Bool) (idx : Nat) :
    List (Except String Image) → List Row × List ImageResponse
  | [] => (db, [])
  | Except.error _ :: rest => processFetched db insertOk (idx + 1) rest
  | Except.ok img :: rest =>
      if insertOk idx then
        let id : Int := (db.length : Int) + 1
        let out := processFetched (db ++ [mkRow id img]) insertOk (idx + 1) rest
        (out.1, mkResponse id img :: out.2)
      else processFetched db insertOk (idx + 1) rest

/-
The images whose row insertion happens: fetched element is Ok and the
insert at that index succeeds, kept in input order.
-/
def selectedImages (insertOk : Nat → Bool) (idx : Nat) :
    List (Except String Image) → List Image
  | [] => []
  | Except.error _ :: rest => selectedImages insertOk (idx + 1) rest
  | Except.ok img :: rest =>
      if insertOk idx then img :: selectedImages insertOk (idx + 1) rest
      else selectedImages insertOk (idx + 1) rest

/- Rows created for a run of images, ids consecutive above the base count. -/
def rowsFrom (base : Nat) : List Image → List Row
  | [] => []
  | img :: rest => mkRow ((base : Int) + 1) img :: rowsFrom (base + 1) rest

/- Success responses for a run of images, ids consecutive above the base count. -/
def respsFrom (base : Nat) : List Image → List ImageResponse
  | [] => []
  | img :: rest => mkResponse ((base : Int) + 1) img :: respsFrom (base + 1) rest

/-
The whole POST /images/fetch handler after the catalog call: a catalog
fetch/parse error is mapped to status 500; otherwise the insertion loop
runs and the handler returns 200 with the success responses (the new
database state is carried alongside).
-/
def fetch_and_insert_images (db : List Row) (insertOk : Nat → Bool)
    (catalog : Except String (List (Except String Image))) :
    Except Nat (List Row × List ImageResponse) :=
  match catalog with
  | Except.error _ => Except.error 500
  | Except.ok fetched => Except.ok (processFetched db insertOk 0 fetched)

/- Query parameters of both handlers; both fields optional. -/
structure FetchImagesQuery where
  page : Option Nat
  limit : Option Nat
deriving DecidableEq

/- The boundary mapping of a database row to the JSON response shape. -/
def rowToResponse (r : Row) : ImageResponse :=
  { id := r.id, author := r.author, width := r.width, height := r.height,
    hash := hexEncode r.hash, path := r.path, mime_type := r.mime_type }

/-
GET /images: limit defaults to 10 and is clamped to 100, offset is
page * limit (page defaults to 0), and the SELECT with LIMIT/OFFSET is
embedded as a scan of the insert-only images table in rowid order (the
order SQLite returns rows of this table; the query itself has no ORDER
BY clause).
-/
def get_images (params : FetchImagesQuery) (db : List Row) : List ImageResponse :=
  let lim := min (params.limit.getD 10) 100
  let off := (params.page.getD 0) * lim
  ((db.drop off).take lim).map rowToResponse

/- A JSON scalar as needed by the response bodies: number or string. -/
inductive JVal where
  | num (n : Int)
  | str (s : String)
deriving DecidableEq

/- Lookup of a field in a JSON object (first binding wins). -/
def jLookup (obj : List (String × JVal)) (k : String) : Option JVal :=
  (obj.find? (fun p => p.1 == k)).map (fun p => p.2)

/- Extract a required number field. -/
def jInt (obj : List (String × JVal)) (k : String) : Option Int :=
  match jLookup obj k with
  | some (JVal.num n) => some n
  | _ => none

/- Extract a required string field. -/
def jString (obj : List (String × JVal)) (k : String) : Option String :=
  match jLookup obj k with
  | some (JVal.str s) => some s
  | _ => none

/-
Serde serialization of the server ImageResponse: one JSON object with
exactly the declared fields, hash already a hex string, and no url
field.
-/
def serverImageResponseToJson (r : ImageResponse) : List (String × JVal) :=
  [("id", JVal.num r.id), ("author", JVal.str r.author),
   ("width", JVal.num r.width), ("height", JVal.num r.height),
   ("hash", JVal.str r.hash), ("path", JVal.str r.path),
   ("mime_type", JVal.str r.mime_type)]

/-
The shared ImageResponse type (src/shared/src/lib.rs) that the frontend
deserializes server responses into: hash carries raw bytes hex-coded via
the serde helpers, and there is a required url field with no default.
-/
structure SharedImageResponse where
  id : Int
  author : String
  width : Int
  height : Int
  hash : List Nat
  path : String
  url : String
  mime_type : String
deriving DecidableEq

/-
Serde deserialization of the shared ImageResponse from a JSON object:
every field is required (none carries a serde default attribute), and
hash is hex-decoded from a string by the serde helper.
-/
def sharedImageResponseFromJson (obj : List (String × JVal)) :
    Option SharedImageResponse := do
  let id ← jInt obj "id"
  let author ← jString obj "author"
  let width ← jInt obj "width"
  let height ← jInt obj "height"
  let hashHex ← jString obj "hash"
  let hash ← hexDecode hashHex
  let path ← jString obj "path"
  let url ← jString obj "url"
  let mime_type ← jString obj "mime_type"
  pure { id := id, author := author, width := width, height := height,
         hash := hash, path := path, url := url, mime_type := mime_type }

/- ### Helper lemmas -/

lemma readCore_no_crash_of_inv {b : Buffer} (h : b.position ≤ b.buffer.length)
    (n : Nat) : b.readCore n ≠ RRes.crash := by
  unfold Buffer.readCore
  rw [if_neg (by omega)]
  intro hc
  exact RRes.noConfusion hc

lemma readCore_ok_inv {b : Buffer} (h : b.position ≤ b.buffer.length) {n : Nat}
    {bs : List Nat} {b2 : Buffer} (hok : b.readCore n = RRes.ok (bs, b2)) :
    BufInv b2 := by
  unfold Buffer.readCore at hok
  rw [if_neg (by omega)] at hok
  injection hok with h1
  injection h1 with _ h2
  subst h2
  simp only [BufInv]
  omega

lemma count_eq_zero_of_all_sendChunk (l : List Ev)
    (h : ∀ x ∈ l, ∃ c, x = Ev.sendChunk c) (e : Ev)
    (he : ∀ c, e ≠ Ev.sendChunk c) : l.count e = 0 := by
  rw [List.count_eq_zero]
  intro hm
  rcases h e hm with ⟨c, hc⟩
  exact he c hc

lemma dropWhile_append_of_all_sendChunk (l t : List Ev)
    (h : ∀ x ∈ l, ∃ c, x = Ev.sendChunk c) :
    List.dropWhile (fun e => !(e == Ev.releasePermit)) (l ++ t) =
      List.dropWhile (fun e => !(e == Ev.releasePermit)) t := by
  induction l with
  | nil => rfl
  | cons x xs ih =>
      rcases h x (by simp) with ⟨c, hc⟩
      subst hc
      simp only [List.cons_append, List.dropWhile_cons]
      rw [if_pos (by simp)]
      exact ih (fun y hy => h y (by simp [hy]))

lemma all_sendChunk_map (cs : List (List Nat)) :
    ∀ x ∈ List.map Ev.sendChunk cs, ∃ c, x = Ev.sendChunk c := by
  intro x hx
  rcases List.mem_map.mp hx with ⟨c, _, hc⟩
  exact ⟨c, hc.symm⟩

lemma all_sendChunk_take_map (k : Nat) (cs : List (List Nat)) :
    ∀ x ∈ List.take k (List.map Ev.sendChunk cs), ∃ c, x = Ev.sendChunk c :=
  fun x hx => all_sendChunk_map cs x (List.mem_of_mem_take hx)

lemma foldl_set_getElem? {α : Type} (v : Nat → Option α) (order : List Nat) :
    ∀ (init : List (Option α)) (j : Nat),
      (order.foldl (fun acc i => acc.set i (v i)) init)[j]? =
        if j ∈ order ∧ j < init.length then some (v j) else init[j]? := by
  induction order with
  | nil => intro init j; simp
  | cons i rest ih =>
      intro init j
      rw [List.foldl_cons, ih, List.length_set]
      by_cases hj : j ∈ rest ∧ j < init.length
      · rw [if_pos hj, if_pos ⟨List.mem_cons_of_mem i hj.1, hj.2⟩]
      · rw [if_neg hj, List.getElem?_set]
        by_cases hij : i = j
        · subst hij
          by_cases hlen : i < init.length
          · simp [hlen]
          · rw [if_pos rfl, if_neg hlen,
              if_neg (fun hc => hlen hc.2), List.getElem?_eq_none (by omega)]
        · rw [if_neg hij]
          by_cases hjr : j ∈ rest
          · have hnl : ¬ j < init.length := fun hl => hj ⟨hjr, hl⟩
            rw [if_neg (fun hc => hnl hc.2)]
          · rw [if_neg (by
              rintro ⟨hmem, _⟩
              rcases List.mem_cons.mp hmem with h1 | h2
              · exact hij h1.symm
              · exact hjr h2)]

lemma joinAllOrdered_eq_of_perm {α : Type} (results : List α) (order : List Nat)
    (h : order.Perm (List.range results.length)) :
    joinAllOrdered results order = results.map some := by
  apply List.ext_getElem?
  intro j
  unfold joinAllOrdered
  rw [foldl_set_getElem? (fun i => results[i]?) order _ j, List.length_replicate]
  have hmem : j ∈ order ↔ j < results.length := by
    rw [h.mem_iff, List.mem_range]
  by_cases hj : j < results.length
  · rw [if_pos ⟨hmem.mpr hj, hj⟩, List.getElem?_map, List.getElem?_eq_getElem hj]
    rfl
  · rw [if_neg (fun hc => hj hc.2), List.getElem?_replicate, if_neg hj,
      List.getElem?_map, List.getElem?_eq_none (by omega)]
    rfl

lemma processFetched_eq :
    ∀ (fetched : List (Except String Image)) (db : List Row)
      (insertOk : Nat → Bool) (idx : Nat),
      processFetched db insertOk idx fetched =
        (db ++ rowsFrom db.length (selectedImages insertOk idx fetched),
         respsFrom db.length (selectedImages insertOk idx fetched)) := by
  intro fetched
  induction fetched with
  | nil =>
      intro db insertOk idx
      simp [processFetched, selectedImages, rowsFrom, respsFrom]
  | cons x rest ih =>
      intro db insertOk idx
      cases x with
      | error e => simp only [processFetched, selectedImages, ih]
      | ok img =>
          by_cases hio : insertOk idx
          · simp only [processFetched, selectedImages, hio, if_pos, ih]
            simp [rowsFrom, respsFrom, List.length_append, List.append_assoc]
          · simp only [processFetched, selectedImages, hio, if_neg, ih]
            simp

/- ### Claim theorems -/

/--
Claim C1. The spec says the synchronous byte source presents the same
bytes, in order, as the disk-write path, under any interleaving of read,
fill_buf/consume and seek. The code violates this: fill_buf returns the
entire accumulated buffer from index 0 instead of the bytes at the
current read position, so after a partial read it re-presents already
consumed bytes. Failing input: chunks [0x41] then [0x42]; the first read
consumes 0x41 (position 1), then fill_buf returns [0x41, 0x42] although
the unconsumed remainder of the stream is [0x42].
-/
theorem fill_buf_ignores_position :
    Buffer.read ⟨[], 0, [[65], [66]]⟩ 1 = RRes.ok ([65], ⟨[65], 1, [[66]]⟩) ∧
    Buffer.fill_buf ⟨[65], 1, [[66]]⟩ = RRes.ok ([65, 66], ⟨[65, 66], 1, []⟩) ∧
    List.drop 1 [65, 66] ≠ [65, 66] := by
  decide

/--
Claim C8. The byte source never aborts through the unreachable
SeekFrom::End branch on a seek the decoder is allowed to issue: for
every seek target other than SeekFrom::End (the spec restricts the
decoder to start/current seeks), seek returns an ok or an InvalidInput
error, never the crash of the unreachable branch.
-/
theorem seek_no_end_no_crash (b : Buffer) (pos : SeekFrom)
    (h : specAllowedSeek pos = true) : b.seek pos ≠ RRes.crash := by
  cases pos with
  | fromEnd off => simp [specAllowedSeek] at h
  | start off =>
      simp only [Buffer.seek]
      split_ifs <;> simp
  | current off =>
      simp only [Buffer.seek]
      split_ifs <;> simp

/-- Witness for C8 at a concrete forward seek. -/
theorem seek_no_end_no_crash_witness :
    specAllowedSeek (SeekFrom.start 3) = true ∧
    Buffer.seek ⟨[], 0, []⟩ (SeekFrom.start 3) ≠ RRes.crash :=
  ⟨rfl, seek_no_end_no_crash ⟨[], 0, []⟩ (SeekFrom.start 3) rfl⟩

/--
Claim C9 counterexample. The claim says every operation, including a
seek beyond the bytes buffered so far, preserves position ≤ buffer
length so read never underflows. In fact seek applies no upper clamp:
seeking to 5 on an empty buffer breaks the invariant, and the following
read — after receiving a 3-byte chunk — evaluates buffer.len() −
position with position 5 > length 3, the underflowing subtraction
(a panic).
-/
theorem seek_beyond_buffer_read_crash :
    Buffer.seek ⟨[], 0, [[5, 6, 7]]⟩ (SeekFrom.start 5) =
      RRes.ok (5, ⟨[], 5, [[5, 6, 7]]⟩) ∧
    ¬ BufInv ⟨[], 5, [[5, 6, 7]]⟩ ∧
    Buffer.read ⟨[], 5, [[5, 6, 7]]⟩ 1 = RRes.crash := by
  decide

/--
Claim C9 (amended). read, fill_buf and consume preserve the invariant
that the position does not exceed the buffered length, and under that
invariant read never reaches the underflowing length computation; only
seek can break the invariant (see the counterexample).
-/
theorem buffer_ops_preserve_inv (b : Buffer) (n amt : Nat) (h : BufInv b) :
    b.read n ≠ RRes.crash ∧
    (∀ bs b2, b.read n = RRes.ok (bs, b2) → BufInv b2) ∧
    (∀ bs b2, b.fill_buf = RRes.ok (bs, b2) → BufInv b2) ∧
    BufInv (b.consume amt) := by
  have hinv : b.position ≤ b.buffer.length := h
  refine ⟨?_, ?_, ?_, ?_⟩
  · unfold Buffer.read
    split
    · cases hch : b.channel with
      | nil => simp [Buffer.read_channel, hch]
      | cons d rest =>
          simp only [Buffer.read_channel, hch]
          exact readCore_no_crash_of_inv (by simp; omega) n
    · exact readCore_no_crash_of_inv hinv n
  · intro bs b2 hok
    unfold Buffer.read at hok
    split at hok
    · cases hch : b.channel with
      | nil => simp [Buffer.read_channel, hch] at hok
      | cons d rest =>
          simp only [Buffer.read_channel, hch] at hok
          exact readCore_ok_inv (by simp; omega) hok
    · exact readCore_ok_inv hinv hok
  · intro bs b2 hok
    unfold Buffer.fill_buf at hok
    cases hch : b.channel with
    | nil => simp [Buffer.read_channel, hch] at hok
    | cons d rest =>
        simp only [Buffer.read_channel, hch] at hok
        injection hok with h1
        injection h1 with _ h2
        subst h2
        simp only [BufInv]
        simp
        omega
  · simp only [Buffer.consume, BufInv]
    exact min_le_left _ _

/-- Witness for C9 (amended) at a concrete buffer state. -/
theorem buffer_ops_preserve_inv_witness :
    Buffer.read ⟨[1], 0, [[2]]⟩ 1 ≠ RRes.crash ∧
    BufInv (Buffer.consume ⟨[1], 0, [[2]]⟩ 5) :=
  ⟨(buffer_ops_preserve_inv ⟨[1], 0, [[2]]⟩ 1 5 (by decide)).1,
   (buffer_ops_preserve_inv ⟨[1], 0, [[2]]⟩ 1 5 (by decide)).2.2.2⟩

/--
Claim C2 counterexample. On the successful exit path the permit is
dropped right after the end-of-stream sentinel is sent and BEFORE the
decode join handle is awaited, so the permit is not held through the
decode: the trace of a successful task shows releasePermit ahead of
awaitDecode, and awaitDecode followed by releasePermit is not a
subsequence of the trace.
-/
theorem permit_released_before_decode_join :
    taskTrace ⟨true, true, none⟩ [] =
      [Ev.acquire, Ev.netGet true, Ev.fileCreate true, Ev.copyDone true,
       Ev.sendSentinel, Ev.releasePermit, Ev.awaitDecode, Ev.closeChannel] ∧
    ¬ List.Sublist [Ev.awaitDecode, Ev.releasePermit] (taskTrace ⟨true, true, none⟩ []) := by
  decide

/--
Claim C2 (amended). On every exit path of an ingestion task the permit
is acquired exactly once and released exactly once, and every event
after the release is either the await of the decode join handle or the
channel-closing drop (so the permit is held through the whole download
and disk write, but on the success path it is released before the
decode completion is awaited).
-/
theorem permit_exit_paths (o : TaskOutcome) (chunks : List (List Nat)) :
    (taskTrace o chunks).count Ev.acquire = 1 ∧
    (taskTrace o chunks).count Ev.releasePermit = 1 ∧
    afterRelease (taskTrace o chunks) =
      (if downloadOk o then [Ev.awaitDecode, Ev.closeChannel] else []) := by
  have hrel : ∀ cs : List (List Nat),
      (List.map Ev.sendChunk cs).count Ev.releasePermit = 0 :=
    fun cs => count_eq_zero_of_all_sendChunk _ (all_sendChunk_map cs) _
      (fun c hc => Ev.noConfusion hc)
  have hrelT : ∀ (k : Nat) (cs : List (List Nat)),
      (List.take k (List.map Ev.sendChunk cs)).count Ev.releasePermit = 0 :=
    fun k cs => count_eq_zero_of_all_sendChunk _ (all_sendChunk_take_map k cs) _
      (fun c hc => Ev.noConfusion hc)
  have hacq : ∀ cs : List (List Nat),
      (List.map Ev.sendChunk cs).count Ev.acquire = 0 :=
    fun cs => count_eq_zero_of_all_sendChunk _ (all_sendChunk_map cs) _
      (fun c hc => Ev.noConfusion hc)
  have hacqT : ∀ (k : Nat) (cs : List (List Nat)),
      (List.take k (List.map Ev.sendChunk cs)).count Ev.acquire = 0 :=
    fun k cs => count_eq_zero_of_all_sendChunk _ (all_sendChunk_take_map k cs) _
      (fun c hc => Ev.noConfusion hc)
  have hdw : ∀ (cs : List (List Nat)) (t : List Ev),
      List.dropWhile (fun e => !(e == Ev.releasePermit)) (List.map Ev.sendChunk cs ++ t) =
        List.dropWhile (fun e => !(e == Ev.releasePermit)) t :=
    fun cs t => dropWhile_append_of_all_sendChunk _ t (all_sendChunk_map cs)
  have hdwT : ∀ (k : Nat) (cs : List (List Nat)) (t : List Ev),
      List.dropWhile (fun e => !(e == Ev.releasePermit))
          (List.take k (List.map Ev.sendChunk cs) ++ t) =
        List.dropWhile (fun e => !(e == Ev.releasePermit)) t :=
    fun k cs t => dropWhile_append_of_all_sendChunk _ t (all_sendChunk_take_map k cs)
  obtain ⟨g, c, f⟩ := o
  cases g <;> cases c <;> rcases f with _ | k <;>
    simp [taskTrace, downloadOk, afterRelease, List.count_cons, List.count_append,
      hrel, hrelT, hacq, hacqT, hdw, hdwT, List.dropWhile_cons]

/--
Claim C6 counterexample. A task whose disk copy fails sends no sentinel
at all: end-of-stream reaches the decode side only through the channel
closing, contradicting the claim that every ingestion task signals
end-of-stream exactly once via the explicit empty-chunk sentinel.
-/
theorem no_sentinel_on_copy_failure :
    ¬ (taskTrace ⟨true, true, some 0⟩ []).count Ev.sendSentinel = 1 ∧
    (taskTrace ⟨true, true, some 0⟩ []).count Ev.closeChannel = 1 := by
  decide

/--
Claim C6 (amended). The empty-chunk sentinel is sent exactly once on
every task whose download, file creation and disk copy succeed, and
never on a failing path; on those failing paths the decode side is
still not left blocked, because a receive on the closed (exhausted)
channel returns an error rather than waiting.
-/
theorem sentinel_exactly_once_on_success (o : TaskOutcome) (chunks : List (List Nat)) :
    (taskTrace o chunks).count Ev.sendSentinel = (if downloadOk o then 1 else 0) ∧
    (∀ buf pos, Buffer.read_channel ⟨buf, pos, []⟩ = Except.error "Data has ended") := by
  constructor
  · have hsen : ∀ cs : List (List Nat),
        (List.map Ev.sendChunk cs).count Ev.sendSentinel = 0 :=
      fun cs => count_eq_zero_of_all_sendChunk _ (all_sendChunk_map cs) _
        (fun c hc => Ev.noConfusion hc)
    have hsenT : ∀ (k : Nat) (cs : List (List Nat)),
        (List.take k (List.map Ev.sendChunk cs)).count Ev.sendSentinel = 0 :=
      fun k cs => count_eq_zero_of_all_sendChunk _ (all_sendChunk_take_map k cs) _
        (fun c hc => Ev.noConfusion hc)
    obtain ⟨g, c, f⟩ := o
    cases g <;> cases c <;> rcases f with _ | k <;>
      simp [taskTrace, downloadOk, List.count_cons, List.count_append, hsen, hsenT]
  · intro buf pos
    rfl

/--
Claim C3. The ingestion result list has exactly one entry per input
descriptor, in input order, regardless of completion order: for every
completion order that is a permutation of the task indices, join_all
assembles exactly the per-descriptor results, in descriptor order.
-/
theorem results_match_input_order (descs : List String)
    (task : String → Except String Image) (order : List Nat)
    (h : order.Perm (List.range descs.length)) :
    fetch_images descs task order = (descs.map task).map some ∧
    (fetch_images descs task order).length = descs.length := by
  have hlen : (descs.map task).length = descs.length := List.length_map _ _
  have heq : fetch_images descs task order = (descs.map task).map some := by
    unfold fetch_images
    exact joinAllOrdered_eq_of_perm _ _ (by rw [hlen]; exact h)
  refine ⟨heq, ?_⟩
  rw [heq]
  simp

/-- Witness for C3 at a concrete descriptor list and completion order. -/
theorem results_match_input_order_witness :
    (fetch_images ["u1", "u2", "u3"] (fun _ => Except.error "bad") [2, 0, 1]).length = 3 :=
  (results_match_input_order ["u1", "u2", "u3"] (fun _ => Except.error "bad")
    [2, 0, 1] (by decide)).2

/--
Claim C4 counterexample. The claim states that a row is inserted and a
success emitted IF AND ONLY IF disk write and decode succeeded; but the
storage insert itself can fail, in which case a task whose write and
decode both succeeded (an ok element of the fetched list) produces no
row and no success response.
-/
theorem insert_failure_no_row_no_success :
    processFetched [] (fun _ => false) 0
        [Except.ok ⟨2, 3, [10], "images/x", "image/jpeg"⟩] = ([], []) ∧
    (Except.ok ⟨2, 3, [10], "images/x", "image/jpeg"⟩ : Except String Image).isOk = true := by
  decide

/--
Claim C4 (amended). A storage row is created and a success response
(carrying the storage-assigned id) is emitted exactly for the tasks
whose disk write and decode succeeded AND whose storage insert
succeeded, in input order with consecutive assigned ids; a task whose
write or decode failed contributes neither a row nor a success.
-/
theorem rows_and_successes_iff_selected (db : List Row) (insertOk : Nat → Bool)
    (fetched : List (Except String Image)) :
    processFetched db insertOk 0 fetched =
      (db ++ rowsFrom db.length (selectedImages insertOk 0 fetched),
       respsFrom db.length (selectedImages insertOk 0 fetched)) :=
  processFetched_eq fetched db insertOk 0

/--
Claim C5. GET /images with page p and limit l returns at most
min l 100 records (limit clamped to 100, defaulting to 10 when absent;
page defaults to 0), skipping the first p * min l 100 stored rows, and
the result is ordered by identifier whenever the table rows are.
-/
theorem get_images_pagination (p l : Nat) (db : List Row) :
    (get_images ⟨some p, some l⟩ db).length ≤ min l 100 ∧
    get_images ⟨some p, some l⟩ db =
      ((db.drop (p * min l 100)).take (min l 100)).map rowToResponse ∧
    get_images ⟨some p, none⟩ db = get_images ⟨some p, some 10⟩ db ∧
    get_images ⟨none, some l⟩ db = get_images ⟨some 0, some l⟩ db ∧
    (List.Pairwise (· < ·) (db.map Row.id) →
      List.Pairwise (· < ·) ((get_images ⟨some p, some l⟩ db).map ImageResponse.id)) := by
  refine ⟨?_, rfl, rfl, rfl, ?_⟩
  · simp [get_images]
  · intro hdb
    have hsub : ((db.drop (p * min l 100)).take (min l 100)).Sublist db :=
      (List.take_sublist _ _).trans (List.drop_sublist _ _)
    have hdb2 : List.Pairwise (fun a b => Row.id a < Row.id b) db :=
      List.pairwise_map.mp hdb
    have hpair : List.Pairwise (fun a b => Row.id a < Row.id b)
        ((db.drop (p * min l 100)).take (min l 100)) :=
      List.Pairwise.sublist hsub hdb2
    show List.Pairwise (· < ·)
      ((((db.drop (p * min l 100)).take (min l 100)).map rowToResponse).map ImageResponse.id)
    rw [List.map_map]
    exact List.pairwise_map.mpr hpair

/-- Witness for C5 at a concrete two-row table sorted by id. -/
theorem get_images_pagination_witness :
    List.Pairwise (· < ·) ((get_images ⟨some 0, some 2⟩
        [⟨1, "a", 4, 5, [], "p", "m"⟩, ⟨2, "a", 6, 7, [], "q", "m"⟩]).map
          ImageResponse.id) :=
  (get_images_pagination 0 2
    [⟨1, "a", 4, 5, [], "p", "m"⟩, ⟨2, "a", 6, 7, [], "q", "m"⟩]).2.2.2.2 (by decide)

/--
Claim C7. The ingestion-trigger handler returns a server error (500)
exactly when the catalog fetch/parse fails; whenever the catalog page is
obtained, it returns ok (HTTP 200) carrying exactly the successfully
ingested subset — per-image download/decode failures and storage-insert
failures only shrink that subset, never fail the batch.
-/
theorem trigger_status (db : List Row) (insertOk : Nat → Bool)
    (catalog : Except String (List (Except String Image))) :
    (∀ e, catalog = Except.error e →
        fetch_and_insert_images db insertOk catalog = Except.error 500) ∧
    (∀ fetched, catalog = Except.ok fetched →
        fetch_and_insert_images db insertOk catalog =
          Except.ok (db ++ rowsFrom db.length (selectedImages insertOk 0 fetched),
            respsFrom db.length (selectedImages insertOk 0 fetched))) := by
  constructor
  · intro e he
    subst he
    rfl
  · intro fetched hf
    subst hf
    simp only [fetch_and_insert_images]
    rw [processFetched_eq]

/--
Witness for C7: a catalog failure maps to 500, and a catalog success
whose single task failed still yields ok with an empty success list.
-/
theorem trigger_status_witness :
    fetch_and_insert_images [] (fun _ => true) (Except.error "boom") = Except.error 500 ∧
    fetch_and_insert_images [] (fun _ => true)
        (Except.ok [Except.error "task failed"]) = Except.ok ([], []) := by
  constructor
  · exact (trigger_status [] (fun _ => true) (Except.error "boom")).1 "boom" rfl
  · have h := (trigger_status [] (fun _ => true)
      (Except.ok [Except.error "task failed"])).2 [Except.error "task failed"] rfl
    simpa [selectedImages, rowsFrom, respsFrom] using h

/--
Claim C10. The server listing/ingestion JSON bodies do NOT deserialize
into the shared ImageResponse type the frontend uses: the shared type
requires a url field (with no serde default) that the server never
emits, so deserialization fails on every server response — even though
the hash itself would round-trip through its hex encoding.
-/
theorem shared_type_rejects_server_json :
    jLookup (serverImageResponseToJson
        ⟨1, "Picsum Photos", 2, 3, hexEncode [10, 255], "images/abc", "image/jpeg"⟩)
      "url" = none ∧
    sharedImageResponseFromJson (serverImageResponseToJson
        ⟨1, "Picsum Photos", 2, 3, hexEncode [10, 255], "images/abc", "image/jpeg"⟩) = none ∧
    hexDecode (hexEncode [10, 255]) = some [10, 255] := by
  decide

end EguiGallery
